import Mathlib

/-!
Shallow embedding of the SpaceProof receipt-chain subsystem.

The repository ships two variants of a `ReceiptChain` object.  The main
variant (the "ledger" variant) keeps an in-memory `ledger` of receipts,
each carrying a `payload_hash` (a simulated dual hash of the payload)
and a `prev_hash` link to the previous receipt's `payload_hash`
(`"GENESIS"` for the first), plus Merkle anchoring (`computeMerkleRoot`,
`anchorBatch`), chain verification (`verifyChain`), statistics
(`getStats`) and `reset`.  A second variant keeps `receipts` and a
separate `merkleRoots` anchor history, cleared by `clear()`.

JavaScript numeric semantics are embedded explicitly: bitwise operators
coerce through ToInt32/ToUint32 (modular 32-bit, two's complement) and
`*` is IEEE-754 double multiplication, modelled as exact integer
multiplication followed by round-to-nearest-even at 53 significant bits.
Strings are modelled as Lean `String`s with `charCodeAt` as `Char.toNat`
(the payloads and digests involved are ASCII, where the two coincide).
-/

set_option maxRecDepth 40000

namespace SpaceProof

/-- ECMAScript ToUint32 of an integral number: the value modulo 2^32. -/
def toUint32 (n : Int) : Nat :=
  (n % (2 ^ 32 : Int)).toNat

/-- Reinterpret a value below 2^32 as a signed 32-bit (two's complement) integer. -/
def asInt32 (m : Nat) : Int :=
  if m < 2 ^ 31 then (m : Int) else (m : Int) - 2 ^ 32

/-- ECMAScript ToInt32 of an integral number. -/
def toInt32 (n : Int) : Int :=
  asInt32 (toUint32 n)

/-- JavaScript `a ^ b` (bitwise xor): both operands pass through ToInt32,
the xor is taken on the 32-bit patterns, and the result is signed. -/
def jsXor (a b : Int) : Int :=
  asInt32 ((toUint32 a) ^^^ (toUint32 b))

/-- JavaScript `a << k`: ToInt32 the operand, shift the 32-bit pattern
left (dropping overflow), read the result as signed. -/
def jsShl (a : Int) (k : Nat) : Int :=
  asInt32 ((toUint32 a <<< k) % 2 ^ 32)

/-- JavaScript `a >> k` (sign-propagating right shift): ToInt32 then
floor-divide by 2^k. -/
def jsShr (a : Int) (k : Nat) : Int :=
  Int.fdiv (toInt32 a) (2 ^ k)

/-- Bit length by fuel (structural recursion so that the kernel can
evaluate it); `bitLenAux fuel n` is the bit length of `n` for `n < 2^fuel`. -/
def bitLenAux : Nat → Nat → Nat
  | 0, _ => 0
  | fuel + 1, n => if n = 0 then 0 else bitLenAux fuel (n / 2) + 1

/-- Bit length of a natural number below 2^64. -/
def bitLen (n : Nat) : Nat :=
  bitLenAux 64 n

/-- Round an integer to the nearest IEEE-754 binary64 value
(round-to-nearest, ties-to-even), returned as an integer.  This is the
value JavaScript stores after an integer-valued `*` whose exact product
exceeds 53 bits.  Inputs stay far below 2^63, where every double is
integral. -/
def roundF64 (n : Int) : Int :=
  let m := n.natAbs
  if m < 2 ^ 53 then n
  else
    let k := bitLen m - 53
    let q := m >>> k
    let r := m % 2 ^ k
    let half := 2 ^ (k - 1)
    let q' := if half < r || (r == half && q % 2 == 1) then q + 1 else q
    if n < 0 then -(((q' <<< k : Nat)) : Int) else ((q' <<< k : Nat) : Int)

/-- One character step of the simulated SHA256 (`sha256Sim`):
`h = (h ^ adj) * 0x01000193`, kept as a JavaScript double. -/
def fnvStep (h : Int) (adj : Int) : Int :=
  roundF64 (jsXor h adj * 16777619)

/-- The four-lane state update of `sha256Sim` for one character code. -/
def sha256Step (st : Int × Int × Int × Int) (c : Nat) : Int × Int × Int × Int :=
  match st with
  | (h0, h1, h2, h3) =>
    (fnvStep h0 (c : Int), fnvStep h1 (jsShr (c : Int) 4),
     fnvStep h2 (jsShl (c : Int) 4), fnvStep h3 (c : Int))

/-- Lowercase hexadecimal digit, as produced by `Number.toString(16)`. -/
def hexDigitChar (n : Nat) : Char :=
  if n < 10 then Char.ofNat (48 + n) else Char.ofNat (87 + n)

/-- Hex digits of `n`, least significant first, by fuel (structural
recursion so that the kernel can evaluate it); complete for `n < 16^fuel`. -/
def natToHexRev : Nat → Nat → List Char
  | 0, _ => []
  | fuel + 1, n => if n = 0 then [] else hexDigitChar (n % 16) :: natToHexRev fuel (n / 16)

/-- JavaScript `n.toString(16)` for a nonnegative integral number below 16^16. -/
def natToHexString (n : Nat) : String :=
  if n = 0 then "0" else String.mk (natToHexRev 16 n).reverse

/-- JavaScript `s.padStart(8, "0")`. -/
def padStart8 (s : String) : String :=
  String.mk (List.replicate (8 - s.length) '0') ++ s

/-- `(x >>> 0).toString(16).padStart(8, "0")` applied to a 32-bit value. -/
def hex8 (n : Nat) : String :=
  padStart8 (natToHexString n)

/-- The `sha256Sim` loop folded over a block of character codes. -/
def sha256Acc (st : Int × Int × Int × Int) (cs : List Char) : Int × Int × Int × Int :=
  cs.foldl (fun acc ch => sha256Step acc ch.toNat) st

/-- The initial lane values `0x6a09e667, 0xbb67ae85, 0x3c6ef372, 0xa54ff53a`. -/
def shaInit : Int × Int × Int × Int :=
  (0x6a09e667, 0xbb67ae85, 0x3c6ef372, 0xa54ff53a)

/-- Simulated SHA256 from the source: four FNV-style lanes folded over
the character codes, printed as hex and truncated to 16 characters
(`.substring(0, 16)` keeps the first two lanes). -/
def sha256Sim (s : String) : String :=
  match sha256Acc shaInit s.toList with
  | (h0, h1, h2, h3) =>
    String.mk (((hex8 (toUint32 h0) ++ hex8 (toUint32 h1)
      ++ hex8 (toUint32 h2) ++ hex8 (toUint32 h3)).toList).take 16)

/-- One lane step of the simulated BLAKE3: `((h << k) - h + adj) >>> 0`.
The stored lanes are `>>> 0` results, hence unsigned 32-bit naturals. -/
def blakeStep (h : Nat) (k : Nat) (adj : Int) : Nat :=
  toUint32 (jsShl (h : Int) k - (h : Int) + adj)

/-- The four-lane state update of `blake3Sim` for one character code. -/
def blake3Lanes (st : Nat × Nat × Nat × Nat) (c : Nat) : Nat × Nat × Nat × Nat :=
  match st with
  | (h0, h1, h2, h3) =>
    (blakeStep h0 5 (c : Int), blakeStep h1 7 (jsShr (c : Int) 2),
     blakeStep h2 11 (jsShl (c : Int) 2), blakeStep h3 13 (c : Int))

/-- The `blake3Sim` loop folded over a block of character codes. -/
def blake3Acc (st : Nat × Nat × Nat × Nat) (cs : List Char) : Nat × Nat × Nat × Nat :=
  cs.foldl (fun acc ch => blake3Lanes acc ch.toNat) st

/-- The initial lane values of `blake3Sim` (same constants, as unsigned). -/
def blakeInit : Nat × Nat × Nat × Nat :=
  (0x6a09e667, 0xbb67ae85, 0x3c6ef372, 0xa54ff53a)

/-- Simulated BLAKE3 from the source: four multiply-shift lanes folded
over the character codes, printed as hex and truncated to 16 characters. -/
def blake3Sim (s : String) : String :=
  match blake3Acc blakeInit s.toList with
  | (h0, h1, h2, h3) =>
    String.mk (((hex8 (h0 % 2 ^ 32) ++ hex8 (h1 % 2 ^ 32)
      ++ hex8 (h2 % 2 ^ 32) ++ hex8 (h3 % 2 ^ 32)).toList).take 16)

/-- `dualHash` on a string argument: `"<sha256Sim>:<blake3Sim>"`. -/
def dualHashStr (s : String) : String :=
  sha256Sim s ++ ":" ++ blake3Sim s

/-- JSON-compatible payload values.  Objects are ordered field lists:
JavaScript objects preserve key insertion order and
`JSON.stringify(data, null, 0)` serializes them in that order. -/
inductive Json where
  | null : Json
  | bool (b : Bool) : Json
  | num (n : Int) : Json
  | str (s : String) : Json
  | arr (elems : List Json) : Json
  | obj (fields : List (String × Json)) : Json

instance : Inhabited Json := ⟨Json.null⟩

/-- JSON string escaping as in ECMAScript `QuoteJSONString` (the
characters appearing in this development need only the standard
short escapes). -/
def escapeJsonChar (c : Char) : List Char :=
  if c = '"' then ['\\', '"']
  else if c = '\\' then ['\\', '\\']
  else if c.toNat = 8 then ['\\', 'b']
  else if c.toNat = 9 then ['\\', 't']
  else if c.toNat = 10 then ['\\', 'n']
  else if c.toNat = 12 then ['\\', 'f']
  else if c.toNat = 13 then ['\\', 'r']
  else if c.toNat < 32 then
    ['\\', 'u', '0', '0', hexDigitChar (c.toNat / 16), hexDigitChar (c.toNat % 16)]
  else [c]

/-- A JSON-quoted string literal. -/
def quoteJson (s : String) : String :=
  "\"" ++ String.mk (s.toList.flatMap escapeJsonChar) ++ "\""

mutual

/-- `JSON.stringify(v, null, 0)`: compact serialization, object keys in
insertion order. -/
def jsonToStr : Json → String
  | Json.null => "null"
  | Json.bool true => "true"
  | Json.bool false => "false"
  | Json.num n => toString n
  | Json.str s => quoteJson s
  | Json.arr elems => "[" ++ arrToStr elems ++ "]"
  | Json.obj fields => "\x7b" ++ objToStr fields ++ "\x7d"

/-- Comma-joined serialization of array elements. -/
def arrToStr : List Json → String
  | [] => ""
  | [v] => jsonToStr v
  | v :: rest => jsonToStr v ++ "," ++ arrToStr rest

/-- Comma-joined serialization of object fields (`"key":value`). -/
def objToStr : List (String × Json) → String
  | [] => ""
  | [(k, v)] => quoteJson k ++ ":" ++ jsonToStr v
  | (k, v) :: rest => quoteJson k ++ ":" ++ jsonToStr v ++ "," ++ objToStr rest

end

/-- The string that `dualHash` actually hashes:
`typeof data === "string" ? data : JSON.stringify(data, null, 0)`. -/
def serializeForHash (d : Json) : String :=
  match d with
  | Json.str s => s
  | other => jsonToStr other

/-- `dualHash(data)` of the ledger variant: serialize (strings pass
through raw), then `"<sha256Sim>:<blake3Sim>"`. -/
def dualHash (d : Json) : String :=
  dualHashStr (serializeForHash d)

/-- A ledger receipt, as built by `emitReceipt`:
`{receipt_type, ts, tenant_id, payload, payload_hash, prev_hash}`. -/
structure Receipt where
  receipt_type : String
  ts : String
  tenant_id : String
  payload : Json
  payload_hash : String
  prev_hash : String

instance : Inhabited Receipt :=
  ⟨⟨"", "", "", Json.null, "", ""⟩⟩

/-- The mutable state of the ledger variant: the in-memory `ledger` array. -/
structure ChainState where
  ledger : List Receipt

/-- The `payload_hash` of the current last receipt, or the value that
`emitReceipt` assigns to `prev_hash` on an empty ledger. -/
def lastPayloadHash (l : List Receipt) : String :=
  match l.getLast? with
  | some r => r.payload_hash
  | none => "GENESIS"

/-- `emitReceipt(receiptType, payload)`: build the receipt with
`payload_hash = dualHash(payload)`, link `prev_hash` to the last
receipt's `payload_hash` (or `"GENESIS"`), push it, and return it.
The wall-clock timestamp is passed in explicitly. -/
def emitReceipt (st : ChainState) (receiptType : String) (payload : Json)
    (ts : String) : Receipt × ChainState :=
  let receipt : Receipt :=
    { receipt_type := receiptType
      ts := ts
      tenant_id := "spaceproof_demo"
      payload := payload
      payload_hash := dualHash payload
      prev_hash := lastPayloadHash st.ledger }
  (receipt, ⟨st.ledger ++ [receipt]⟩)

/-- Combine adjacent pairs of an even-length level:
`dualHash(hashes[i] + hashes[i+1])` for `i = 0, 2, 4, ...`. -/
def combinePairs : List String → List String
  | a :: b :: rest => dualHashStr (a ++ b) :: combinePairs rest
  | _ => []

/-- `if (hashes.length % 2 !== 0) hashes.push(hashes[hashes.length - 1])`. -/
def padIfOdd (hashes : List String) : List String :=
  if hashes.length % 2 = 1 then hashes ++ [hashes.getLast!] else hashes

/-- The `while (hashes.length > 1)` folding loop of `computeMerkleRoot`,
driven by fuel (each pass at least halves the level, so fuel equal to
the initial length suffices; structural recursion keeps it
kernel-evaluable). -/
def merkleLoop : Nat → List String → List String
  | 0, hashes => hashes
  | fuel + 1, hashes =>
    if hashes.length > 1 then merkleLoop fuel (combinePairs (padIfOdd hashes))
    else hashes

/-- Merkle fold of a nonempty leaf level down to the root `hashes[0]`. -/
def merkleFold (hashes : List String) : String :=
  (merkleLoop hashes.length hashes).headD ""

/-- `computeMerkleRoot()`: `dualHash("empty")` on an empty ledger,
otherwise fold the `payload_hash` leaves pairwise (odd levels duplicate
their last element) down to a single root. -/
def computeMerkleRoot (st : ChainState) : String :=
  if st.ledger.length = 0 then dualHashStr "empty"
  else merkleFold (st.ledger.map (fun r => r.payload_hash))

/-- `anchorBatch()`: compute the Merkle root of the current ledger, then
emit a `batch_anchor_receipt` whose payload records the root, the batch
size (the ledger length before the anchor is pushed), the algorithm
names, and an anchor timestamp. -/
def anchorBatch (st : ChainState) (anchorTs : String) (ts : String) :
    Receipt × ChainState :=
  let merkleRoot := computeMerkleRoot st
  emitReceipt st "batch_anchor_receipt"
    (Json.obj
      [("merkle_root", Json.str merkleRoot),
       ("batch_size", Json.num (st.ledger.length : Int)),
       ("hash_algorithms", Json.arr [Json.str "SHA256", Json.str "BLAKE3"]),
       ("anchor_timestamp", Json.str anchorTs)])
    ts

/-- The two result shapes returned by `verifyChain`. -/
inductive VerifyResult where
  | invalid (error : String) (expected : String) (found : String) : VerifyResult
  | valid (length : Nat) (merkle_root : String) : VerifyResult
deriving DecidableEq

/-- `true` exactly on the `valid` result shape (`result.valid` in JS). -/
def VerifyResult.isValid : VerifyResult → Bool
  | VerifyResult.valid _ _ => true
  | VerifyResult.invalid _ _ _ => false

/-- The `for (let i = 1; ...)` scan of `verifyChain`: walk adjacent
pairs carrying the JS loop index, returning the first index whose
`prev_hash` does not match the previous `payload_hash`, together with
the expected and found values. -/
def verifyPairs (previous : Receipt) (rest : List Receipt) (i : Nat) :
    Option (Nat × String × String) :=
  match rest with
  | [] => none
  | current :: tail =>
    if current.prev_hash ≠ previous.payload_hash then
      some (i, previous.payload_hash, current.prev_hash)
    else verifyPairs current tail (i + 1)

/-- `verifyChain()`: scan the chain links from index 1; report the first
break (`Chain break at index i` with expected/found hashes), else return
`valid` with the ledger length and the current Merkle root. -/
def verifyChain (st : ChainState) : VerifyResult :=
  match st.ledger with
  | [] => VerifyResult.valid st.ledger.length (computeMerkleRoot st)
  | first :: rest =>
    match verifyPairs first rest 1 with
    | some (i, expectedH, foundH) =>
      VerifyResult.invalid ("Chain break at index " ++ toString i) expectedH foundH
    | none => VerifyResult.valid st.ledger.length (computeMerkleRoot st)

/-- Increment the count of a receipt type in the `byType` accumulator,
preserving first-insertion order as a JS object does. -/
def bumpType (bt : List (String × Nat)) (t : String) : List (String × Nat) :=
  match bt with
  | [] => [(t, 1)]
  | (k, n) :: rest => if k = t then (k, n + 1) :: rest else (k, n) :: bumpType rest t

/-- The result of `getStats()`. -/
structure Stats where
  total_receipts : Nat
  by_type : List (String × Nat)
  merkle_root : String
  chain_valid : Bool

/-- `getStats()`: receipt count, per-type counts, current Merkle root and
chain validity. -/
def getStats (st : ChainState) : Stats :=
  { total_receipts := st.ledger.length
    by_type := st.ledger.foldl (fun acc r => bumpType acc r.receipt_type) []
    merkle_root := computeMerkleRoot st
    chain_valid := (verifyChain st).isValid }

/-- `reset()`: `this.ledger = []`. -/
def reset (_st : ChainState) : ChainState :=
  ⟨[]⟩

/-- One append operation: the arguments of an `emitReceipt` call plus the
wall-clock timestamp observed during it. -/
structure AppendOp where
  receiptType : String
  payload : Json
  ts : String

/-- Run a sequence of `emitReceipt` calls against a starting state. -/
def appendAll (st : ChainState) (ops : List AppendOp) : ChainState :=
  ops.foldl (fun s op => (emitReceipt s op.receiptType op.payload op.ts).2) st

/-- A ledger produced solely by `emitReceipt` calls on a fresh ledger. -/
def buildLedger (ops : List AppendOp) : ChainState :=
  appendAll ⟨[]⟩ ops

namespace V1

/-- A receipt of the first `ReceiptChain` variant (no `prev_hash` link). -/
structure Receipt where
  receipt_type : String
  ts : String
  tenant_id : String
  payload : Json
  payload_hash : String

/-- An entry of the separate `merkleRoots` anchor history of the first
variant (`{root, batch_size, ts}`). -/
structure MerkleRootEntry where
  root : String
  batch_size : Nat
  ts : String

/-- The state of the first variant: `receipts` plus the `merkleRoots`
anchor history. -/
structure ChainState where
  receipts : List Receipt
  merkleRoots : List MerkleRootEntry

/-- `clear()`: `this.receipts = []; this.merkleRoots = []` (the
`updateReceiptCount` call only touches the DOM). -/
def clear (_st : ChainState) : ChainState :=
  ⟨[], []⟩

end V1

/-! ## Chain-link invariants of ledgers built by appends -/

/-- All links hold in `rest` when the preceding receipt is `p`:
each receipt's `prev_hash` equals the previous receipt's `payload_hash`. -/
def chainFrom (p : Receipt) : List Receipt → Bool
  | [] => true
  | c :: rest => (c.prev_hash == p.payload_hash) && chainFrom c rest

/-- All links of the ledger hold (the check `verifyChain` performs). -/
def chainOk : List Receipt → Bool
  | [] => true
  | a :: rest => chainFrom a rest

/-- Every stored `payload_hash` is the dual hash of the stored payload. -/
def hashesWF (l : List Receipt) : Prop :=
  ∀ r ∈ l, r.payload_hash = dualHash r.payload

theorem verifyPairs_none_of_chainFrom (rest : List Receipt) (p : Receipt) (i : Nat)
    (h : chainFrom p rest = true) : verifyPairs p rest i = none := by
  induction rest generalizing p i with
  | nil => rfl
  | cons c tail ih =>
    simp only [chainFrom, Bool.and_eq_true, beq_iff_eq] at h
    simp only [verifyPairs, h.1, ne_eq, not_true_eq_false, if_false, ite_false]
    exact ih c (i + 1) h.2

theorem chainFrom_of_verifyPairs_none (rest : List Receipt) (p : Receipt) (i : Nat)
    (h : verifyPairs p rest i = none) : chainFrom p rest = true := by
  induction rest generalizing p i with
  | nil => rfl
  | cons c tail ih =>
    simp only [verifyPairs] at h
    by_cases hc : c.prev_hash = p.payload_hash
    · simp only [chainFrom, Bool.and_eq_true, beq_iff_eq]
      refine ⟨hc, ?_⟩
      simp only [hc, ne_eq, not_true_eq_false, if_false, ite_false] at h
      exact ih c (i + 1) h
    · simp [hc] at h

theorem chainFrom_snoc (l : List Receipt) (p r : Receipt)
    (hok : chainFrom p l = true) (hr : r.prev_hash = lastPayloadHash (p :: l)) :
    chainFrom p (l ++ [r]) = true := by
  induction l generalizing p with
  | nil =>
    simp only [lastPayloadHash, List.getLast?_singleton] at hr
    simp [chainFrom, hr]
  | cons c tail ih =>
    simp only [chainFrom, Bool.and_eq_true, beq_iff_eq] at hok
    simp only [List.cons_append, chainFrom, Bool.and_eq_true, beq_iff_eq]
    refine ⟨hok.1, ?_⟩
    refine ih c hok.2 ?_
    simpa only [lastPayloadHash, List.getLast?_cons_cons] using hr

theorem chainOk_snoc (l : List Receipt) (r : Receipt)
    (hok : chainOk l = true) (hr : r.prev_hash = lastPayloadHash l) :
    chainOk (l ++ [r]) = true := by
  cases l with
  | nil => rfl
  | cons a tail =>
    exact chainFrom_snoc tail a r hok hr

theorem chainFrom_tail (p c : Receipt) (tail : List Receipt)
    (h : chainFrom p (c :: tail) = true) : chainFrom c tail = true := by
  simp only [chainFrom, Bool.and_eq_true] at h
  exact h.2

/-- The combined invariant every ledger built by appends satisfies. -/
def ledgerInv (l : List Receipt) : Prop :=
  chainOk l = true ∧ hashesWF l

theorem emitReceipt_inv (st : ChainState) (t : String) (p : Json) (ts : String)
    (h : ledgerInv st.ledger) : ledgerInv (emitReceipt st t p ts).2.ledger := by
  obtain ⟨hok, hwf⟩ := h
  constructor
  · exact chainOk_snoc st.ledger _ hok rfl
  · intro r hr
    rcases List.mem_append.mp hr with hmem | hmem
    · exact hwf r hmem
    · rcases List.mem_singleton.mp hmem with rfl
      rfl

theorem appendAll_inv (ops : List AppendOp) :
    ∀ st : ChainState, ledgerInv st.ledger → ledgerInv (appendAll st ops).ledger := by
  induction ops with
  | nil => intro st h; exact h
  | cons op rest ih =>
    intro st h
    exact ih _ (emitReceipt_inv st op.receiptType op.payload op.ts h)

theorem appendAll_length (ops : List AppendOp) :
    ∀ st : ChainState, (appendAll st ops).ledger.length = st.ledger.length + ops.length := by
  induction ops with
  | nil => intro st; rfl
  | cons op rest ih =>
    intro st
    have h1 : appendAll st (op :: rest) =
        appendAll (emitReceipt st op.receiptType op.payload op.ts).2 rest := rfl
    have h2 : (emitReceipt st op.receiptType op.payload op.ts).2.ledger.length =
        st.ledger.length + 1 := by simp [emitReceipt]
    rw [h1, ih, h2, List.length_cons]
    omega

theorem buildLedger_inv (ops : List AppendOp) : ledgerInv (buildLedger ops).ledger :=
  appendAll_inv ops ⟨[]⟩ ⟨rfl, fun _ h => absurd h (List.not_mem_nil _)⟩

theorem buildLedger_length (ops : List AppendOp) :
    (buildLedger ops).ledger.length = ops.length := by
  simpa using appendAll_length ops ⟨[]⟩

theorem verifyChain_of_chainOk (l : List Receipt) (hok : chainOk l = true) :
    verifyChain ⟨l⟩ = VerifyResult.valid l.length (computeMerkleRoot ⟨l⟩) := by
  cases l with
  | nil => rfl
  | cons first rest =>
    simp only [verifyChain, verifyPairs_none_of_chainFrom rest first 1 hok]

theorem chainFrom_getD (l : List Receipt) (p : Receipt) (h : chainFrom p l = true) :
    ∀ i, i + 1 < (p :: l).length →
      ((p :: l).getD (i + 1) default).prev_hash = ((p :: l).getD i default).payload_hash := by
  induction l generalizing p with
  | nil => intro i hi; simp at hi
  | cons c tail ih =>
    intro i hi
    simp only [chainFrom, Bool.and_eq_true, beq_iff_eq] at h
    cases i with
    | zero =>
      simpa only [List.getD_cons_succ, List.getD_cons_zero] using h.1
    | succ j =>
      have := ih c h.2 j (by simpa using Nat.lt_of_succ_lt_succ hi)
      simpa only [List.getD_cons_succ] using this

theorem chainOk_getD (l : List Receipt) (hok : chainOk l = true) :
    ∀ i, i + 1 < l.length →
      (l.getD (i + 1) default).prev_hash = (l.getD i default).payload_hash := by
  cases l with
  | nil => intro i hi; simp at hi
  | cons a tail => exact chainFrom_getD tail a hok

theorem getD_mem {α : Type} (l : List α) (d : α) :
    ∀ i, i < l.length → l.getD i d ∈ l := by
  induction l with
  | nil => intro i hi; simp at hi
  | cons a tail ih =>
    intro i hi
    cases i with
    | zero => simp
    | succ j =>
      simp only [List.getD_cons_succ]
      exact List.mem_cons_of_mem a (ih j (by simpa using Nat.lt_of_succ_lt_succ hi))

/-! ## Digest shape: a dual hash is always 33 characters (`16:16`) -/

theorem natToHexRev_length_le (fuel : Nat) :
    ∀ n k, n < 16 ^ k → (natToHexRev fuel n).length ≤ k := by
  induction fuel with
  | zero => intro n k _; simp [natToHexRev]
  | succ fuel ih =>
    intro n k hn
    by_cases h0 : n = 0
    · simp [natToHexRev, h0]
    · cases k with
      | zero => omega
      | succ j =>
        simp only [natToHexRev, h0, if_false, ite_false, List.length_cons]
        have hdiv : n / 16 < 16 ^ j := by
          refine (Nat.div_lt_iff_lt_mul (by norm_num : 0 < 16)).mpr ?_
          rw [pow_succ] at hn
          exact hn
        exact Nat.succ_le_succ (ih (n / 16) j hdiv)

theorem string_mk_length (cs : List Char) : (String.mk cs).length = cs.length := rfl

theorem natToHexString_length_le (n : Nat) (h : n < 16 ^ 8) :
    (natToHexString n).length ≤ 8 := by
  by_cases h0 : n = 0
  · subst h0; decide
  · simp only [natToHexString, h0, if_false, ite_false, string_mk_length,
      List.length_reverse]
    exact natToHexRev_length_le 16 n 8 h

theorem padStart8_length (s : String) (h : s.length ≤ 8) : (padStart8 s).length = 8 := by
  simp only [padStart8, String.length_append, string_mk_length, List.length_replicate]
  omega

theorem hex8_length (n : Nat) (h : n < 2 ^ 32) : (hex8 n).length = 8 :=
  padStart8_length _ (natToHexString_length_le n (by norm_num at h ⊢; omega))

theorem toUint32_lt (x : Int) : toUint32 x < 2 ^ 32 := by
  have h1 : 0 ≤ x % (2 ^ 32 : Int) := Int.emod_nonneg x (by norm_num)
  have h2 : x % (2 ^ 32 : Int) < (2 ^ 32 : Int) := Int.emod_lt_of_pos x (by norm_num)
  simp only [toUint32]
  omega

theorem string_toList_append (s t : String) : (s ++ t).toList = s.toList ++ t.toList := by
  cases s; cases t; rfl

theorem sha256Sim_length (s : String) : (sha256Sim s).length = 16 := by
  unfold sha256Sim
  rcases sha256Acc shaInit s.toList with ⟨h0, h1, h2, h3⟩
  simp only [string_mk_length, List.length_take, string_toList_append,
    List.length_append]
  have e0 := hex8_length (toUint32 h0) (toUint32_lt h0)
  have e1 := hex8_length (toUint32 h1) (toUint32_lt h1)
  have e2 := hex8_length (toUint32 h2) (toUint32_lt h2)
  have e3 := hex8_length (toUint32 h3) (toUint32_lt h3)
  have lt : ∀ t : String, t.length = t.toList.length := fun t => rfl
  rw [lt] at e0 e1 e2 e3
  omega

theorem blake3Sim_length (s : String) : (blake3Sim s).length = 16 := by
  unfold blake3Sim
  rcases blake3Acc blakeInit s.toList with ⟨h0, h1, h2, h3⟩
  simp only [string_mk_length, List.length_take, string_toList_append,
    List.length_append]
  have e0 := hex8_length (h0 % 2 ^ 32) (Nat.mod_lt _ (by norm_num))
  have e1 := hex8_length (h1 % 2 ^ 32) (Nat.mod_lt _ (by norm_num))
  have e2 := hex8_length (h2 % 2 ^ 32) (Nat.mod_lt _ (by norm_num))
  have e3 := hex8_length (h3 % 2 ^ 32) (Nat.mod_lt _ (by norm_num))
  have lt : ∀ t : String, t.length = t.toList.length := fun t => rfl
  rw [lt] at e0 e1 e2 e3
  omega

theorem dualHashStr_length (s : String) : (dualHashStr s).length = 33 := by
  simp only [dualHashStr, String.length_append, sha256Sim_length, blake3Sim_length]
  rfl

theorem dualHash_ne_genesis (d : Json) : dualHash d ≠ "GENESIS" := by
  intro h
  have hlen := congrArg String.length h
  rw [dualHash, dualHashStr_length] at hlen
  exact absurd hlen (by decide)

/-! ## Congruence: `verifyChain` reads only the stored hash fields -/

theorem verifyPairs_congr (rest : List Receipt) :
    ∀ (rest' : List Receipt) (p p' : Receipt) (i : Nat),
      p.payload_hash = p'.payload_hash →
      rest.map (fun r => r.payload_hash) = rest'.map (fun r => r.payload_hash) →
      rest.map (fun r => r.prev_hash) = rest'.map (fun r => r.prev_hash) →
      verifyPairs p rest i = verifyPairs p' rest' i := by
  induction rest with
  | nil =>
    intro rest' p p' i hp hh hv
    cases rest' with
    | nil => rfl
    | cons c' tail' => simp at hh
  | cons c tail ih =>
    intro rest' p p' i hp hh hv
    cases rest' with
    | nil => simp at hh
    | cons c' tail' =>
      simp only [List.map_cons, List.cons.injEq] at hh hv
      simp only [verifyPairs, hv.1, hh.1, hp]
      by_cases hc : c'.prev_hash = p'.payload_hash
      · simp only [hc, ne_eq, not_true_eq_false, if_false, ite_false]
        exact ih tail' c c' (i + 1) hh.1 hh.2 hv.2
      · simp [hc]

theorem computeMerkleRoot_congr (l l' : List Receipt)
    (hh : l.map (fun r => r.payload_hash) = l'.map (fun r => r.payload_hash)) :
    computeMerkleRoot ⟨l⟩ = computeMerkleRoot ⟨l'⟩ := by
  have hl : l.length = l'.length := by
    have := congrArg List.length hh
    simpa using this
  simp only [computeMerkleRoot, hl, hh]

theorem verifyChain_congr (l l' : List Receipt)
    (hh : l.map (fun r => r.payload_hash) = l'.map (fun r => r.payload_hash))
    (hv : l.map (fun r => r.prev_hash) = l'.map (fun r => r.prev_hash)) :
    verifyChain ⟨l⟩ = verifyChain ⟨l'⟩ := by
  cases l with
  | nil =>
    cases l' with
    | nil => rfl
    | cons c' tail' => simp at hh
  | cons first rest =>
    cases l' with
    | nil => simp at hh
    | cons first' rest' =>
      simp only [List.map_cons, List.cons.injEq] at hh hv
      have hlen : rest.length = rest'.length := by
        have := congrArg List.length hh.2
        simpa using this
      have hroot : computeMerkleRoot ⟨first :: rest⟩ = computeMerkleRoot ⟨first' :: rest'⟩ := by
        apply computeMerkleRoot_congr
        simp [hh.1, hh.2]
      simp only [verifyChain,
        verifyPairs_congr rest rest' first first' 1 hh.1 hh.2 hv.2,
        List.length_cons, hlen, hroot]

/-- Out-of-band mutation of the stored `payload` object of the receipt at
a given index, leaving every hash field untouched. -/
def setPayloadAt : List Receipt → Nat → Json → List Receipt
  | [], _, _ => []
  | r :: rest, 0, p => { r with payload := p } :: rest
  | r :: rest, i + 1, p => r :: setPayloadAt rest i p

theorem setPayloadAt_map_payload_hash (l : List Receipt) :
    ∀ i p, (setPayloadAt l i p).map (fun r => r.payload_hash) =
      l.map (fun r => r.payload_hash) := by
  induction l with
  | nil => intro i p; rfl
  | cons r rest ih =>
    intro i p
    cases i with
    | zero => rfl
    | succ j => simp [setPayloadAt, ih j p]

theorem setPayloadAt_map_prev_hash (l : List Receipt) :
    ∀ i p, (setPayloadAt l i p).map (fun r => r.prev_hash) =
      l.map (fun r => r.prev_hash) := by
  induction l with
  | nil => intro i p; rfl
  | cons r rest ih =>
    intro i p
    cases i with
    | zero => rfl
    | succ j => simp [setPayloadAt, ih j p]

theorem appendAll_ledger_prefix (ops : List AppendOp) :
    ∀ st : ChainState, ∃ ext, (appendAll st ops).ledger = st.ledger ++ ext := by
  induction ops with
  | nil => intro st; exact ⟨[], by simp [appendAll]⟩
  | cons op rest ih =>
    intro st
    obtain ⟨ext, hext⟩ := ih (emitReceipt st op.receiptType op.payload op.ts).2
    refine ⟨(emitReceipt st op.receiptType op.payload op.ts).1 :: ext, ?_⟩
    have h1 : appendAll st (op :: rest) =
        appendAll (emitReceipt st op.receiptType op.payload op.ts).2 rest := rfl
    rw [h1, hext]
    simp [emitReceipt]

/-- A concrete two-receipt ledger used by the concrete instances below. -/
def demoOps : List AppendOp :=
  [⟨"component_verification_receipt", Json.str "a", "t1"⟩,
   ⟨"mode_switch_receipt", Json.str "b", "t2"⟩]

/-! ## The claims -/

/-- C1: for every ledger produced solely by append operations, every
receipt at index `i > 0` has `prev_hash` equal to the `payload_hash` of
the receipt at index `i - 1`, and `verifyChain()` returns the `valid`
result carrying the total receipt count `N` (for any `N ≥ 0`, including
the empty ledger) and the current Merkle root. -/
theorem chain_integrity_positive (ops : List AppendOp) :
    (∀ i, i + 1 < (buildLedger ops).ledger.length →
      ((buildLedger ops).ledger.getD (i + 1) default).prev_hash =
        ((buildLedger ops).ledger.getD i default).payload_hash) ∧
    verifyChain (buildLedger ops) =
      VerifyResult.valid ops.length (computeMerkleRoot (buildLedger ops)) := by
  obtain ⟨hok, _⟩ := buildLedger_inv ops
  refine ⟨chainOk_getD _ hok, ?_⟩
  have h := verifyChain_of_chainOk (buildLedger ops).ledger hok
  rw [buildLedger_length] at h
  exact h

/-- Witness for C1: the two-receipt demo ledger is fully linked and
verifies with count 2. -/
theorem chain_integrity_positive_witness :
    ((buildLedger demoOps).ledger.getD 1 default).prev_hash =
      ((buildLedger demoOps).ledger.getD 0 default).payload_hash ∧
    verifyChain (buildLedger demoOps) =
      VerifyResult.valid 2 (computeMerkleRoot (buildLedger demoOps)) :=
  ⟨(chain_integrity_positive demoOps).1 0 (by decide),
   (chain_integrity_positive demoOps).2⟩

/-- C9: the chained-ledger `verifyChain` inspects only the stored hash
fields; replacing the payload object of any receipt (keeping its
`payload_hash` and all `prev_hash` fields) leaves the verification
result unchanged, and on an append-built ledger that result is `valid`. -/
theorem payload_mutation_invisible (ops : List AppendOp) (i : Nat) (p : Json) :
    verifyChain ⟨setPayloadAt (buildLedger ops).ledger i p⟩ =
      verifyChain (buildLedger ops) ∧
    (verifyChain (buildLedger ops)).isValid = true := by
  constructor
  · exact verifyChain_congr _ _ (setPayloadAt_map_payload_hash _ i p)
      (setPayloadAt_map_prev_hash _ i p)
  · rw [verifyChain_of_chainOk _ (buildLedger_inv ops).1]
    rfl

/-- C4: on every nonempty append-built ledger the first receipt carries
the `"GENESIS"` sentinel as `prev_hash`, and no receipt at index `i > 0`
carries it (every later `prev_hash` is a 33-character dual hash). -/
theorem genesis_sentinel (ops : List AppendOp) (hne : ops ≠ []) :
    ((buildLedger ops).ledger.getD 0 default).prev_hash = "GENESIS" ∧
    ∀ i, 0 < i → i < (buildLedger ops).ledger.length →
      ((buildLedger ops).ledger.getD i default).prev_hash ≠ "GENESIS" := by
  obtain ⟨hok, hwf⟩ := buildLedger_inv ops
  constructor
  · cases ops with
    | nil => exact absurd rfl hne
    | cons op rest =>
      have h1 : buildLedger (op :: rest) =
          appendAll (emitReceipt ⟨[]⟩ op.receiptType op.payload op.ts).2 rest := rfl
      obtain ⟨ext, hext⟩ :=
        appendAll_ledger_prefix rest (emitReceipt ⟨[]⟩ op.receiptType op.payload op.ts).2
      rw [h1, hext]
      simp [emitReceipt, lastPayloadHash]
  · intro i hi0 hilen
    obtain ⟨j, rfl⟩ : ∃ j, i = j + 1 := ⟨i - 1, by omega⟩
    have hlink := chainOk_getD _ hok j hilen
    rw [hlink]
    have hmem := getD_mem (buildLedger ops).ledger default j (by omega)
    rw [hwf _ hmem]
    exact dualHash_ne_genesis _

/-- Witness for C4 on the concrete two-receipt ledger. -/
theorem genesis_sentinel_witness :
    ((buildLedger demoOps).ledger.getD 0 default).prev_hash = "GENESIS" ∧
    ((buildLedger demoOps).ledger.getD 1 default).prev_hash ≠ "GENESIS" :=
  ⟨(genesis_sentinel demoOps (List.cons_ne_nil _ _)).1,
   (genesis_sentinel demoOps (List.cons_ne_nil _ _)).2 1 (by decide) (by decide)⟩

/-- C8: `reset()` empties the ledger (`getStats().total_receipts = 0`),
a subsequent append starts over at the `"GENESIS"` sentinel, and the
first variant's `clear()` empties both the receipt list and the
`merkleRoots` anchor history; all of these hold from any prior state. -/
theorem reset_completeness :
    (∀ st : ChainState, (getStats (reset st)).total_receipts = 0) ∧
    (∀ (st : ChainState) (t : String) (p : Json) (ts : String),
      (emitReceipt (reset st) t p ts).1.prev_hash = "GENESIS") ∧
    (∀ st : V1.ChainState,
      (V1.clear st).receipts = [] ∧ (V1.clear st).merkleRoots = []) :=
  ⟨fun _ => rfl, fun _ _ _ _ => rfl, fun _ => ⟨rfl, rfl⟩⟩

/-- C3 (amended): the dual hash is a pure function of the serialized
payload string, so it is deterministic and equal serializations give
equal digests; but serialization preserves key insertion order (no
sorting), so structurally equal objects with different key order can
hash differently, as the concrete pair here does. -/
theorem dualHash_deterministic_not_keyorder_free :
    (∀ d1 d2 : Json, serializeForHash d1 = serializeForHash d2 →
      dualHash d1 = dualHash d2) ∧
    dualHash (Json.obj [("a", Json.str "1"), ("b", Json.str "2")]) ≠
      dualHash (Json.obj [("b", Json.str "2"), ("a", Json.str "1")]) := by
  constructor
  · intro d1 d2 h
    simp only [dualHash, h]
  · decide

/-- Witness for C3 (amended): two syntactically distinct payloads with
equal serializations (the string `"5"` and the number `5`) hash equally. -/
theorem dualHash_deterministic_witness :
    serializeForHash (Json.str "5") = serializeForHash (Json.num 5) ∧
    dualHash (Json.str "5") = dualHash (Json.num 5) :=
  ⟨by decide, dualHash_deterministic_not_keyorder_free.1 _ _ (by decide)⟩

/-- Out-of-band mutation of the stored `prev_hash` of the receipt at a
given index. -/
def setPrevHashAt : List Receipt → Nat → String → List Receipt
  | [], _, _ => []
  | r :: rest, 0, h => { r with prev_hash := h } :: rest
  | r :: rest, i + 1, h => r :: setPrevHashAt rest i h

/-- Out-of-band mutation of the stored `payload_hash` of the receipt at
a given index. -/
def setPayloadHashAt : List Receipt → Nat → String → List Receipt
  | [], _, _ => []
  | r :: rest, 0, h => { r with payload_hash := h } :: rest
  | r :: rest, i + 1, h => r :: setPayloadHashAt rest i h

theorem verifyPairs_setPrevHashAt (rest : List Receipt) :
    ∀ (p : Receipt) (j n : Nat) (hN : String),
      chainFrom p rest = true → j < rest.length →
      hN ≠ (rest.getD j default).prev_hash →
      verifyPairs p (setPrevHashAt rest j hN) n =
        some (n + j, ((p :: rest).getD j default).payload_hash, hN) := by
  induction rest with
  | nil => intro p j n hN _ hj _; simp at hj
  | cons c tail ih =>
    intro p j n hN hok hj hne
    simp only [chainFrom, Bool.and_eq_true, beq_iff_eq] at hok
    cases j with
    | zero =>
      simp only [List.getD_cons_zero] at hne
      rw [hok.1] at hne
      simp [setPrevHashAt, verifyPairs, hne]
    | succ k =>
      simp only [List.getD_cons_succ] at hne
      have hrec := ih c k (n + 1) hN hok.2
        (by simpa using Nat.lt_of_succ_lt_succ hj) hne
      simp only [setPrevHashAt, verifyPairs, hok.1, ne_eq, not_true_eq_false,
        if_false, ite_false, hrec, List.getD_cons_succ]
      congr 2
      omega

theorem verifyPairs_setPayloadHashAt (rest : List Receipt) :
    ∀ (p : Receipt) (j n : Nat) (hN : String),
      chainFrom p rest = true → j + 1 < rest.length →
      hN ≠ (rest.getD j default).payload_hash →
      verifyPairs p (setPayloadHashAt rest j hN) n =
        some (n + j + 1, hN, (rest.getD (j + 1) default).prev_hash) := by
  induction rest with
  | nil => intro p j n hN _ hj _; simp at hj
  | cons c tail ih =>
    intro p j n hN hok hj hne
    simp only [chainFrom, Bool.and_eq_true, beq_iff_eq] at hok
    cases j with
    | zero =>
      cases tail with
      | nil => simp at hj
      | cons d tt =>
        simp only [List.getD_cons_zero] at hne
        have hd : d.prev_hash = c.payload_hash := by
          have := hok.2
          simp only [chainFrom, Bool.and_eq_true, beq_iff_eq] at this
          exact this.1
        have hcond : d.prev_hash ≠ hN := by
          rw [hd]
          exact fun h => hne h.symm
        simp [setPayloadHashAt, verifyPairs, hok.1, hcond]
    | succ k =>
      simp only [List.getD_cons_succ] at hne
      have hrec := ih c k (n + 1) hN hok.2
        (by simpa using Nat.lt_of_succ_lt_succ hj) hne
      simp only [setPayloadHashAt, verifyPairs, hok.1, ne_eq, not_true_eq_false,
        if_false, ite_false, hrec, List.getD_cons_succ]
      congr 2
      omega

/-- C2 (amended): on an append-built ledger, out-of-band mutation of a
`prev_hash` at index `i ≥ 1`, or of a `payload_hash` at an index other
than the last, makes `verifyChain()` return `valid == false` naming the
first broken index with the expected and found values.  (Mutating the
first receipt's `prev_hash` or the last receipt's `payload_hash` is not
checked by any link and goes undetected; `verifyChain` reads but never
writes the ledger.) -/
theorem chain_integrity_negative (ops : List AppendOp) (i : Nat) (hN : String) :
    (1 ≤ i → i < (buildLedger ops).ledger.length →
      hN ≠ ((buildLedger ops).ledger.getD i default).prev_hash →
      verifyChain ⟨setPrevHashAt (buildLedger ops).ledger i hN⟩ =
        VerifyResult.invalid ("Chain break at index " ++ toString i)
          (((buildLedger ops).ledger.getD (i - 1) default).payload_hash) hN) ∧
    (i + 1 < (buildLedger ops).ledger.length →
      hN ≠ ((buildLedger ops).ledger.getD i default).payload_hash →
      verifyChain ⟨setPayloadHashAt (buildLedger ops).ledger i hN⟩ =
        VerifyResult.invalid ("Chain break at index " ++ toString (i + 1)) hN
          (((buildLedger ops).ledger.getD (i + 1) default).prev_hash)) := by
  obtain ⟨hok, _⟩ := buildLedger_inv ops
  constructor
  · intro hi1 hilen hne
    obtain ⟨j, rfl⟩ : ∃ j, i = j + 1 := ⟨i - 1, by omega⟩
    cases hl : (buildLedger ops).ledger with
    | nil => rw [hl] at hilen; simp at hilen
    | cons first rest =>
      rw [hl] at hok hilen hne
      simp only [List.getD_cons_succ] at hne
      have hpairs := verifyPairs_setPrevHashAt rest first j 1 hN hok
        (by simpa using Nat.lt_of_succ_lt_succ hilen) hne
      simp only [setPrevHashAt, verifyChain, hpairs]
      have hj1 : 1 + j = j + 1 := by omega
      simp only [hj1, Nat.add_sub_cancel]
  · intro hilen hne
    cases hl : (buildLedger ops).ledger with
    | nil => rw [hl] at hilen; simp at hilen
    | cons first rest =>
      rw [hl] at hok hilen hne
      cases i with
      | zero =>
        cases rest with
        | nil => simp at hilen
        | cons d tt =>
          simp only [List.getD_cons_zero] at hne
          have hd : d.prev_hash = first.payload_hash := by
            have hok' : chainFrom first (d :: tt) = true := hok
            simp only [chainFrom, Bool.and_eq_true, beq_iff_eq] at hok'
            exact hok'.1
          have hcond : d.prev_hash ≠ hN := by
            rw [hd]
            exact fun h => hne h.symm
          simp [setPayloadHashAt, verifyChain, verifyPairs, hcond]
      | succ j =>
        simp only [List.getD_cons_succ] at hne
        have hpairs := verifyPairs_setPayloadHashAt rest first j 1 hN hok
          (by simpa using Nat.lt_of_succ_lt_succ hilen) hne
        simp only [setPayloadHashAt, verifyChain, hpairs]
        have hj1 : 1 + j + 1 = j + 1 + 1 := by omega
        simp only [hj1, List.getD_cons_succ]

/-- Witness for C2 (amended) on the concrete two-receipt ledger:
a mutated `prev_hash` at index 1 and a mutated `payload_hash` at
index 0 are both reported at the right index. -/
theorem chain_integrity_negative_witness :
    verifyChain ⟨setPrevHashAt (buildLedger demoOps).ledger 1 "deadbeef"⟩ =
      VerifyResult.invalid ("Chain break at index " ++ toString 1)
        (((buildLedger demoOps).ledger.getD 0 default).payload_hash) "deadbeef" ∧
    verifyChain ⟨setPayloadHashAt (buildLedger demoOps).ledger 0 "deadbeef"⟩ =
      VerifyResult.invalid ("Chain break at index " ++ toString 1) "deadbeef"
        (((buildLedger demoOps).ledger.getD 1 default).prev_hash) :=
  ⟨(chain_integrity_negative demoOps 1 "deadbeef").1 (by decide) (by decide) (by decide),
   (chain_integrity_negative demoOps 0 "deadbeef").2 (by decide) (by decide)⟩

/-- Counterexample to C2 as stated: mutating the last receipt's stored
`payload_hash` out-of-band (here on a two-receipt append-built ledger)
leaves `verifyChain()` reporting `valid == true`, because no later link
reads it. -/
theorem last_payload_hash_mutation_undetected :
    "deadbeef" ≠ ((buildLedger demoOps).ledger.getD 1 default).payload_hash ∧
    (verifyChain ⟨setPayloadHashAt (buildLedger demoOps).ledger 1 "deadbeef"⟩).isValid
      = true := by
  constructor
  · decide
  · decide

/-- Counterexample to C3 as stated: two object payloads whose field
lists are permutations of each other (structural equality up to key
insertion order) produce different dual hashes. -/
theorem keyorder_independence_fails :
    List.Perm [("a", Json.str "1"), ("b", Json.str "2")]
      [("b", Json.str "2"), ("a", Json.str "1")] ∧
    dualHash (Json.obj [("a", Json.str "1"), ("b", Json.str "2")]) ≠
      dualHash (Json.obj [("b", Json.str "2"), ("a", Json.str "1")]) := by
  constructor
  · exact List.Perm.swap _ _ _
  · decide

/-- A concrete single-receipt ledger. -/
def singleOp : List AppendOp :=
  [⟨"component_verification_receipt", Json.str "a", "t1"⟩]

theorem getLastBang_singleton {α : Type} [Inhabited α] (a : α) : [a].getLast! = a := by
  simp [List.getLast!]

theorem getLastBang_cons_cons {α : Type} [Inhabited α] (a b : α) (l : List α) :
    (a :: b :: l).getLast! = (b :: l).getLast! := by
  simp [List.getLast!, List.getLast?_cons_cons]

/-- C5 (amended): `computeMerkleRoot` returns `dualHash("empty")` on an
empty ledger; on a single receipt it returns that receipt's
`payload_hash` itself (the folding loop `while (hashes.length > 1)`
never runs, so the single leaf is not combined with itself); it depends
only on the list of `payload_hash` leaves (hence equal batches give
equal roots); and on five leaves the odd level is completed by
duplicating its last element at every level, not just the first. -/
theorem merkle_root_structure :
    computeMerkleRoot ⟨[]⟩ = dualHashStr "empty" ∧
    (∀ r : Receipt, computeMerkleRoot ⟨[r]⟩ = r.payload_hash) ∧
    (∀ l l' : List Receipt,
      l.map (fun r => r.payload_hash) = l'.map (fun r => r.payload_hash) →
      computeMerkleRoot ⟨l⟩ = computeMerkleRoot ⟨l'⟩) ∧
    (∀ l0 l1 l2 l3 l4 : String,
      merkleFold [l0, l1, l2, l3, l4] =
        dualHashStr
          (dualHashStr (dualHashStr (l0 ++ l1) ++ dualHashStr (l2 ++ l3)) ++
           dualHashStr (dualHashStr (l4 ++ l4) ++ dualHashStr (l4 ++ l4)))) := by
  refine ⟨rfl, fun _ => rfl, computeMerkleRoot_congr, ?_⟩
  intro l0 l1 l2 l3 l4
  simp [merkleFold, merkleLoop, padIfOdd, combinePairs,
    getLastBang_singleton, getLastBang_cons_cons]

/-- Witness for C5 (amended): two single-receipt ledgers agreeing on the
stored leaf hash (but nothing else) get the same root. -/
theorem merkle_root_structure_witness :
    computeMerkleRoot ⟨[⟨"a", "t1", "x", Json.null, "h1", "GENESIS"⟩]⟩ =
      computeMerkleRoot ⟨[⟨"b", "t2", "y", Json.bool true, "h1", "GENESIS"⟩]⟩ :=
  merkle_root_structure.2.2.1 _ _ rfl

/-- Counterexample to C5 as stated: over a batch of exactly one receipt
the root equals the single leaf itself, not the hash of the leaf
combined with itself. -/
theorem singleton_merkle_root_is_leaf :
    computeMerkleRoot (buildLedger singleOp) =
      ((buildLedger singleOp).ledger.getD 0 default).payload_hash ∧
    computeMerkleRoot (buildLedger singleOp) ≠
      dualHashStr (((buildLedger singleOp).ledger.getD 0 default).payload_hash ++
        ((buildLedger singleOp).ledger.getD 0 default).payload_hash) := by
  constructor
  · rfl
  · decide

/-- The first anchor receipt emitted on a fresh ledger (fixed concrete
timestamps). -/
def anchor1 : Receipt :=
  (anchorBatch ⟨[]⟩ "t1" "t2").1

/-- The ledger state after the first anchor. -/
def st1 : ChainState :=
  (anchorBatch ⟨[]⟩ "t1" "t2").2

/-- The second anchor receipt, emitted immediately after the first with
no other appends in between. -/
def anchor2 : Receipt :=
  (anchorBatch st1 "t3" "t4").1

/-- Extract a string-valued field of an object payload. -/
def objStrField (j : Json) (key : String) : Option String :=
  match j with
  | Json.obj fields =>
    match fields.lookup key with
    | some (Json.str s) => some s
    | _ => none
  | _ => none

/-- Extract a number-valued field of an object payload. -/
def objIntField (j : Json) (key : String) : Option Int :=
  match j with
  | Json.obj fields =>
    match fields.lookup key with
    | some (Json.num n) => some n
    | _ => none
  | _ => none

theorem sha256Acc_append (st : Int × Int × Int × Int) (l1 l2 : List Char) :
    sha256Acc st (l1 ++ l2) = sha256Acc (sha256Acc st l1) l2 := by
  simp only [sha256Acc, List.foldl_append]

theorem blake3Acc_append (st : Nat × Nat × Nat × Nat) (l1 l2 : List Char) :
    blake3Acc st (l1 ++ l2) = blake3Acc (blake3Acc st l1) l2 := by
  simp only [blake3Acc, List.foldl_append]

/-- The serialization of the payload of `anchor1`. -/
def anchor1PayloadStr : String :=
  "\x7b\"merkle_root\":\"e43157f48d2c9d84:a3bb8746b0b84716\",\"batch_size\":0,\"hash_algorithms\":[\"SHA256\",\"BLAKE3\"],\"anchor_timestamp\":\"t1\"\x7d"

/-- First third of `anchor1PayloadStr` (evaluation chunk). -/
def chunkA : String := "\x7b\"merkle_root\":\"e43157f48d2c9d84:a3bb8746b0b847"

/-- Second third of `anchor1PayloadStr` (evaluation chunk). -/
def chunkB : String := "16\",\"batch_size\":0,\"hash_algorithms\":[\"SHA256\""

/-- Last third of `anchor1PayloadStr` (evaluation chunk). -/
def chunkC : String := ",\"BLAKE3\"],\"anchor_timestamp\":\"t1\"\x7d"

theorem anchor1PayloadStr_chunks :
    anchor1PayloadStr.toList = chunkA.toList ++ chunkB.toList ++ chunkC.toList := by
  decide

theorem sha256Acc_chunkA :
    sha256Acc shaInit chunkA.toList =
      (3226564359651257, 28369086833001012, -2554278136498896, -21811784870670360) := by
  decide

theorem sha256Acc_chunkB :
    sha256Acc (3226564359651257, 28369086833001012, -2554278136498896,
        -21811784870670360) chunkB.toList =
      (-178856901358074, 29488559703128432, 1453886989343984, 14397088812097488) := by
  decide

theorem sha256Acc_chunkC :
    sha256Acc (-178856901358074, 29488559703128432, 1453886989343984,
        14397088812097488) chunkC.toList =
      (-15972442994694336, -13513521026220988, 21413403981813920,
        19199490197442796) := by
  decide

theorem blake3Acc_chunkA :
    blake3Acc blakeInit chunkA.toList =
      (2174528850, 1428483727, 1383775730, 1195313951) := by
  decide

theorem blake3Acc_chunkB :
    blake3Acc (2174528850, 1428483727, 1383775730, 1195313951) chunkB.toList =
      (3157763086, 3457040919, 649395810, 3407014715) := by
  decide

theorem blake3Acc_chunkC :
    blake3Acc (3157763086, 3457040919, 649395810, 3407014715) chunkC.toList =
      (3628535103, 283868252, 1232498898, 578778258) := by
  decide

theorem dualHash_anchor1_payload :
    dualHash anchor1.payload = "d11b274033913c44:d8470d3f10eb7c5c" := by
  have hser : serializeForHash anchor1.payload = anchor1PayloadStr := by decide
  have hsha : sha256Acc shaInit anchor1PayloadStr.toList =
      (-15972442994694336, -13513521026220988, 21413403981813920,
        19199490197442796) := by
    rw [anchor1PayloadStr_chunks, sha256Acc_append, sha256Acc_append,
      sha256Acc_chunkA, sha256Acc_chunkB, sha256Acc_chunkC]
  have hblake : blake3Acc blakeInit anchor1PayloadStr.toList =
      (3628535103, 283868252, 1232498898, 578778258) := by
    rw [anchor1PayloadStr_chunks, blake3Acc_append, blake3Acc_append,
      blake3Acc_chunkA, blake3Acc_chunkB, blake3Acc_chunkC]
  have hs : sha256Sim anchor1PayloadStr = "d11b274033913c44" := by
    rw [sha256Sim, hsha]
    decide
  have hb : blake3Sim anchor1PayloadStr = "d8470d3f10eb7c5c" := by
    rw [blake3Sim, hblake]
    decide
  rw [dualHash, hser, dualHashStr, hs, hb]
  decide

theorem lastPayloadHash_snoc (l : List Receipt) (r : Receipt) :
    lastPayloadHash (l ++ [r]) = r.payload_hash := by
  simp [lastPayloadHash, List.getLast?_concat]

/-- C6 (amended): two successive `anchorBatch()` calls with no appends
in between produce two distinct receipts at consecutive chain positions,
the second chain-linked to the first; their payloads differ (the second
records a batch size one larger), and their `merkle_root` payload values
are the roots of two different ledgers — the second additionally covers
the first anchor receipt, so the roots are in general unequal (and are
unequal in the concrete run `anchor1`/`anchor2`). -/
theorem anchor_twice_distinct (st : ChainState) (a1 e1 a2 e2 : String) :
    (anchorBatch (anchorBatch st a1 e1).2 a2 e2).1.prev_hash =
      (anchorBatch st a1 e1).1.payload_hash ∧
    (anchorBatch (anchorBatch st a1 e1).2 a2 e2).2.ledger =
      st.ledger ++
        [(anchorBatch st a1 e1).1, (anchorBatch (anchorBatch st a1 e1).2 a2 e2).1] ∧
    objIntField (anchorBatch st a1 e1).1.payload "batch_size" =
      some (st.ledger.length : Int) ∧
    objIntField (anchorBatch (anchorBatch st a1 e1).2 a2 e2).1.payload "batch_size" =
      some ((st.ledger.length : Int) + 1) ∧
    objStrField (anchorBatch st a1 e1).1.payload "merkle_root" =
      some (computeMerkleRoot st) ∧
    objStrField (anchorBatch (anchorBatch st a1 e1).2 a2 e2).1.payload "merkle_root" =
      some (computeMerkleRoot (anchorBatch st a1 e1).2) := by
  refine ⟨?_, ?_, rfl, ?_, rfl, rfl⟩
  · exact lastPayloadHash_snoc st.ledger _
  · exact List.append_assoc st.ledger _ _
  · show some (((st.ledger ++ [(anchorBatch st a1 e1).1]).length : Int)) =
      some ((st.ledger.length : Int) + 1)
    simp

/-- Counterexample to C6 as stated: in the concrete double-anchor run,
the `merkle_root` payload values of the two anchor receipts are not
equal (the second root also covers the first anchor receipt). -/
theorem anchor_roots_not_equal :
    objStrField anchor1.payload "merkle_root" = some (dualHashStr "empty") ∧
    objStrField anchor2.payload "merkle_root" = some (dualHash anchor1.payload) ∧
    objStrField anchor1.payload "merkle_root" ≠
      objStrField anchor2.payload "merkle_root" := by
  refine ⟨rfl, rfl, ?_⟩
  have h1 : objStrField anchor1.payload "merkle_root" =
      some "e43157f48d2c9d84:a3bb8746b0b84716" := by decide
  have h2 : objStrField anchor2.payload "merkle_root" =
      some (dualHash anchor1.payload) := rfl
  rw [h1, h2, dualHash_anchor1_payload]
  decide

end SpaceProof
